import Mathlib

/-!
Verification development for the metrics core of the
Deep-Reinforcement-Learning-for-Dynamic-Portfolio-Optimization repository
(src/utils/metrics.py and src/utils/data_loader.py).

The pandas/numpy pipeline is shallowly embedded: series values are exact
rationals, and every float produced by the pipeline is represented by the
type `Flt` below, which carries nan, the two infinities, or the exact real
number q * sqrt r encoded as the pair (q, r).  Square roots enter the
pipeline only through np.sqrt(252) and standard deviations and are only
ever multiplied or divided, so this shape is closed under every operation
the source performs.  Degenerate float behaviour (division by a zero
statistic, statistics of empty series) is modelled exactly; rounding is
idealised away, matching the specification's within-tolerance reading.
-/

namespace Port

/-- Model of a pandas Series: a list of (index label, value) pairs.  The
labels model the date index; values are exact rationals. -/
abbrev Series := List (Nat × ℚ)

/-- Model of the DataFrame consumed by the repository: a date index plus
named numeric columns (only the adjusted close column is ever accessed). -/
structure DataFrame where
  index : List Nat
  cols : List (String × List ℚ)
deriving DecidableEq

/-- Column lookup, modelling both df[name] and the test name in df.columns. -/
def DataFrame.col? (df : DataFrame) (name : String) : Option (List ℚ) :=
  df.cols.lookup name

/-- Model of an IEEE double as produced by the numpy/pandas pipeline,
idealised to exact arithmetic: nan, a signed infinity, or the exact real
number q * sqrt r encoded by `fin q r` (0 < r is maintained by
construction; rational values use r = 1). -/
inductive Flt where
  | nan
  | pinf
  | ninf
  | fin (q : ℚ) (r : ℚ)
deriving DecidableEq

/-- Embed an exact rational as a float value. -/
def Flt.ofQ (q : ℚ) : Flt := .fin q 1

/-- Model of np.sqrt on a rational argument: nan below zero, else the exact
square root. -/
def Flt.sqrtQ (q : ℚ) : Flt :=
  if q < 0 then .nan else if q = 0 then .fin 0 1 else .fin 1 q

/-- IEEE multiplication on the float model.  The sign of `fin q r` is the
sign of q, since r is positive. -/
def Flt.mul : Flt → Flt → Flt
  | .nan, _ => .nan
  | _, .nan => .nan
  | .pinf, .pinf => .pinf
  | .pinf, .ninf => .ninf
  | .ninf, .pinf => .ninf
  | .ninf, .ninf => .pinf
  | .pinf, .fin q _ => if q = 0 then .nan else if 0 < q then .pinf else .ninf
  | .fin q _, .pinf => if q = 0 then .nan else if 0 < q then .pinf else .ninf
  | .ninf, .fin q _ => if q = 0 then .nan else if 0 < q then .ninf else .pinf
  | .fin q _, .ninf => if q = 0 then .nan else if 0 < q then .ninf else .pinf
  | .fin q r, .fin q' r' => .fin (q * q') (r * r')

/-- IEEE division on the float model.  Zero is unsigned: every zero
denominator in the source arises as a nonnegative statistic, hence as +0,
so a nonzero finite numerator over zero carries the numerator's sign. -/
def Flt.div : Flt → Flt → Flt
  | .nan, _ => .nan
  | _, .nan => .nan
  | .pinf, .pinf => .nan
  | .pinf, .ninf => .nan
  | .ninf, .pinf => .nan
  | .ninf, .ninf => .nan
  | .pinf, .fin q _ => if 0 ≤ q then .pinf else .ninf
  | .ninf, .fin q _ => if 0 ≤ q then .ninf else .pinf
  | .fin _ _, .pinf => .fin 0 1
  | .fin _ _, .ninf => .fin 0 1
  | .fin q r, .fin q' r' =>
    if q' = 0 then (if q = 0 then .nan else if 0 < q then .pinf else .ninf)
    else .fin (q / q') (r / r')

/-- IEEE subtraction on the float model.  In every expression of the source
the two finite operands share the same radicand (subtraction occurs only in
calculate_alpha between rational-valued floats), so the mixed-radicand
case, which the pair encoding cannot represent, never arises; it is mapped
to nan and is unreachable in this development. -/
def Flt.sub : Flt → Flt → Flt
  | .nan, _ => .nan
  | _, .nan => .nan
  | .pinf, .pinf => .nan
  | .pinf, _ => .pinf
  | .ninf, .ninf => .nan
  | .ninf, _ => .ninf
  | .fin _ _, .pinf => .ninf
  | .fin _ _, .ninf => .pinf
  | .fin q r, .fin q' r' =>
    if r = r' then .fin (q - q') r
    else if q = 0 then .fin (-q') r'
    else if q' = 0 then .fin q r
    else .nan

/-- True exactly on nan and the two infinities. -/
def Flt.nonFinite : Flt → Bool
  | .fin _ _ => false
  | _ => true

/-- The real number denoted by a float value (junk value 0 on nan and the
infinities, which are never interpreted in this development). -/
noncomputable def Flt.toReal : Flt → ℝ
  | .fin q r => (q : ℝ) * Real.sqrt (r : ℝ)
  | _ => 0

/-- Mean of a list of rationals (meaningful on nonempty lists). -/
def meanQ (xs : List ℚ) : ℚ := xs.sum / xs.length

/-- pandas Series.mean: nan on an empty series. -/
def meanF (xs : List ℚ) : Flt :=
  if xs.length = 0 then .nan else .ofQ (meanQ xs)

/-- Sample variance with ddof = 1 (meaningful when 2 ≤ length). -/
def varQ (xs : List ℚ) : ℚ :=
  ((xs.map (fun x => (x - meanQ xs) ^ 2)).sum) / ((xs.length : ℚ) - 1)

/-- pandas Series.var (ddof = 1): nan when there are fewer than 2
observations, else the exact sample variance. -/
def varF (xs : List ℚ) : Flt :=
  if xs.length < 2 then .nan else .ofQ (varQ xs)

/-- pandas Series.std (ddof = 1): nan when there are fewer than 2
observations, else the square root of the sample variance. -/
def stdF (xs : List ℚ) : Flt :=
  if xs.length < 2 then .nan else Flt.sqrtQ (varQ xs)

/-- Sum of centred cross products, the numerator shared by the sample
covariance and the Pearson correlation coefficient. -/
def centeredSum (xs ys : List ℚ) : ℚ :=
  (List.zipWith (fun x y => (x - meanQ xs) * (y - meanQ ys)) xs ys).sum

/-- Sample covariance with ddof = 1 (meaningful when 2 ≤ length). -/
def covQ (xs ys : List ℚ) : ℚ := centeredSum xs ys / ((xs.length : ℚ) - 1)

/-- The (0,1) entry of the np.cov matrix once the shapes agree: nan for
fewer than 2 observations (a 0/0), else the exact sample covariance. -/
def covSampleF (xs ys : List ℚ) : Flt :=
  if xs.length < 2 then .nan else .ofQ (covQ xs ys)

/-- np.cov(xs, ys)[0][1]: numpy raises a shape error when the two
one-dimensional arrays have different lengths, before any arithmetic. -/
def npCov (xs ys : List ℚ) : Except String Flt :=
  if xs.length = ys.length then .ok (covSampleF xs ys)
  else .error "ValueError: all the input array dimensions must match exactly"

/-- pandas Series.min: nan on an empty series, else the minimum value. -/
def listMinF (xs : List ℚ) : Flt :=
  match xs with
  | [] => .nan
  | x :: t => .ofQ (t.foldl min x)

/-- Running products with accumulator, for pandas Series.cumprod. -/
def cumprodAux (acc : ℚ) : List ℚ → List ℚ
  | [] => []
  | x :: t => (acc * x) :: cumprodAux (acc * x) t

/-- pandas Series.cumprod. -/
def cumprod (xs : List ℚ) : List ℚ := cumprodAux 1 xs

/-- Running maxima with accumulator, for pandas Series.cummax. -/
def cummaxAux (m : ℚ) : List ℚ → List ℚ
  | [] => []
  | x :: t => max m x :: cummaxAux (max m x) t

/-- pandas Series.cummax. -/
def cummax : List ℚ → List ℚ
  | [] => []
  | x :: t => x :: cummaxAux x t

/-- Series.pct_change().dropna() on the value column: fractional
day-over-day changes; the first row, whose change is undefined, is
dropped. -/
def pctChange (xs : List ℚ) : List ℚ :=
  List.zipWith (fun a b => b / a - 1) xs xs.tail

/-- The error raised by pandas when a missing column is subscripted. -/
def keyErr : String := "KeyError: Adj Close"

/-- The expression self.df[Adj Close].pct_change().dropna() shared by every
metric of metrics.py: the daily return values, or a key error when the
column is absent. -/
def adjCloseReturns (df : DataFrame) : Except String (List ℚ) :=
  match df.col? "Adj Close" with
  | none => .error keyErr
  | some prices => .ok (pctChange prices)

/-- The same expression keeping the date labels (dropna drops the first
row, so the labels are the tail of the index); used where pandas aligns on
the index, namely Series.corr. -/
def adjCloseReturnSeries (df : DataFrame) : Except String Series :=
  match df.col? "Adj Close" with
  | none => .error keyErr
  | some prices => .ok (df.index.tail.zip (pctChange prices))

/-- Model of MetricsCalculator.calculate_sharpe_ratio (metrics.py):
np.sqrt(252) * excess_returns.mean() / excess_returns.std(). -/
def calculate_sharpe (df : DataFrame) (risk_free_rate : ℚ) :
    Except String Flt := do
  let returns ← adjCloseReturns df
  let excess_returns := returns.map (fun r => r - risk_free_rate / 252)
  pure (((Flt.sqrtQ 252).mul (meanF excess_returns)).div (stdF excess_returns))

/-- Model of MetricsCalculator.calculate_sortino_ratio (metrics.py):
np.sqrt(252) * excess_returns.mean() / downside_returns.std(). -/
def calculate_sortino (df : DataFrame) (risk_free_rate : ℚ) :
    Except String Flt := do
  let returns ← adjCloseReturns df
  let excess_returns := returns.map (fun r => r - risk_free_rate / 252)
  let downside_returns := excess_returns.filter (fun r => decide (r < 0))
  pure (((Flt.sqrtQ 252).mul (meanF excess_returns)).div (stdF downside_returns))

/-- Model of MetricsCalculator.calculate_max_drawdown (metrics.py). -/
def calculate_max_drawdown (df : DataFrame) : Except String Flt := do
  let returns ← adjCloseReturns df
  let cumulative_returns := cumprod (returns.map (fun r => 1 + r))
  let peak := cummax cumulative_returns
  let drawdown := List.zipWith (fun c p => (c - p) / p) cumulative_returns peak
  pure ((listMinF drawdown).mul (Flt.ofQ 100))

/-- Model of MetricsCalculator.calculate_volatility (metrics.py):
returns.std() * np.sqrt(252), times 100. -/
def calculate_volatility (df : DataFrame) : Except String Flt := do
  let returns ← adjCloseReturns df
  pure (((stdF returns).mul (Flt.sqrtQ 252)).mul (Flt.ofQ 100))

/-- Model of MetricsCalculator.calculate_beta (metrics.py):
np.cov(stock, benchmark)[0][1] / benchmark.var().  np.cov ignores the
benchmark's index labels and works positionally on the values. -/
def calculate_beta (df : DataFrame) (benchmark_returns : Series) :
    Except String Flt := do
  let stock_returns ← adjCloseReturns df
  let covariance ← npCov stock_returns (benchmark_returns.map (fun lv => lv.2))
  let benchmark_variance := varF (benchmark_returns.map (fun lv => lv.2))
  pure (covariance.div benchmark_variance)

/-- Model of MetricsCalculator.calculate_alpha (metrics.py):
(excess_stock.mean() - beta * excess_benchmark.mean()) * 252. -/
def calculate_alpha (df : DataFrame) (benchmark_returns : Series)
    (risk_free_rate : ℚ) : Except String Flt := do
  let stock_returns ← adjCloseReturns df
  let excess_stock_returns := stock_returns.map (fun r => r - risk_free_rate / 252)
  let excess_benchmark_returns := benchmark_returns.map (fun lv => lv.2 - risk_free_rate / 252)
  let beta ← calculate_beta df benchmark_returns
  pure (((meanF excess_stock_returns).sub
    (beta.mul (meanF excess_benchmark_returns))).mul (Flt.ofQ 252))

/-- Model of MetricsCalculator.calculate_correlation (metrics.py): pandas
Series.corr inner-joins the two series on their index labels, then takes
the Pearson coefficient of the paired values (nan when degenerate); it
never raises for numeric inputs. -/
def calculate_correlation (df : DataFrame) (benchmark_returns : Series) :
    Except String Flt := do
  let stock_returns ← adjCloseReturnSeries df
  let pairs := stock_returns.filterMap
    (fun lv => (benchmark_returns.lookup lv.1).map (fun w => (lv.2, w)))
  let xs := pairs.map (fun p => p.1)
  let ys := pairs.map (fun p => p.2)
  pure ((covSampleF xs ys).div ((stdF xs).mul (stdF ys)))

/-- Model of MetricsCalculator.calculate_metrics (metrics.py): the seven
metrics evaluated in the order of the dict literal (python dicts preserve
insertion order), with one shared benchmark and risk-free rate. -/
def calculate_metrics (df : DataFrame) (benchmark_returns : Series)
    (risk_free_rate : ℚ) : Except String (List (String × Flt)) := do
  let s ← calculate_sharpe df risk_free_rate
  let so ← calculate_sortino df risk_free_rate
  let md ← calculate_max_drawdown df
  let v ← calculate_volatility df
  let b ← calculate_beta df benchmark_returns
  let a ← calculate_alpha df benchmark_returns risk_free_rate
  let c ← calculate_correlation df benchmark_returns
  pure [("Sharpe Ratio", s), ("Sortino Ratio", so), ("Max Drawdown", md),
        ("Volatility", v), ("Beta", b), ("Alpha", a), ("Correlation", c)]

/-- Model of DataLoader.get_returns (data_loader.py): an explicit column
check raising a value error, then pct_change().dropna(). -/
def get_returns (df : DataFrame) : Except String Series :=
  match df.col? "Adj Close" with
  | none => .error "DataFrame must contain an Adj Close column."
  | some prices => .ok (df.index.tail.zip (pctChange prices))

/-- The textbook Pearson correlation coefficient of two paired samples,
written from the specification's words for comparison with the code
model. -/
noncomputable def pearson (xs ys : List ℚ) : ℝ :=
  (centeredSum xs ys : ℝ) /
    (Real.sqrt (centeredSum xs xs) * Real.sqrt (centeredSum ys ys))

/-- Propagation of an error through bind in the Except monad. -/
@[simp] theorem bindE_error {α β : Type} (e : String) (f : α → Except String β) :
    (Bind.bind (Except.error e) f : Except String β) = Except.error e := rfl

/-- Bind on a successful Except value. -/
@[simp] theorem bindE_ok {α β : Type} (a : α) (f : α → Except String β) :
    (Bind.bind (Except.ok a) f : Except String β) = f a := rfl

/-- Propagation of an error through map in the Except monad. -/
@[simp] theorem mapE_error {α β : Type} (e : String) (f : α → β) :
    (f <$> (Except.error e : Except String α)) = (Except.error e : Except String β) := rfl

/-- Map over a successful Except value. -/
@[simp] theorem mapE_ok {α β : Type} (a : α) (f : α → β) :
    (f <$> (Except.ok a : Except String α)) = (Except.ok (f a) : Except String β) := rfl

/-- Pure in the Except monad is ok. -/
@[simp] theorem pureE {α : Type} (a : α) : (pure a : Except String α) = Except.ok a := rfl

/-- Multiplying nan gives nan whatever the other operand. -/
theorem mulF_nan (x : Flt) : x.mul .nan = .nan := by cases x <;> rfl

/-- Dividing by nan gives nan whatever the numerator. -/
theorem divF_nan (x : Flt) : x.div .nan = .nan := by cases x <;> rfl

/-- A finite float divided by a zero-valued finite float is non-finite
(signed infinity or nan), never an error. -/
theorem div_fin_zero_nonFinite (q r r' : ℚ) :
    ((Flt.fin q r).div (Flt.fin 0 r')).nonFinite = true := by
  simp only [Flt.div, if_pos rfl]
  split_ifs <;> rfl

/-- Folding min over a list never exceeds the initial value. -/
theorem foldl_min_le_init (t : List ℚ) (x : ℚ) : t.foldl min x ≤ x := by
  induction t generalizing x with
  | nil => simp
  | cons y t ih => exact le_trans (ih (min x y)) (min_le_left x y)

/-- Folding min from 0 over a list of zeros gives 0. -/
theorem foldl_min_zeros (t : List ℚ) (h : ∀ y ∈ t, y = 0) : t.foldl min 0 = 0 := by
  induction t with
  | nil => rfl
  | cons y t ih =>
    have hy : y = 0 := h y (by simp)
    subst hy
    simpa using ih (fun z hz => h z (by simp [hz]))

/-- Zipping a list with itself is mapping the diagonal. -/
theorem zipWith_self_eq_map {α β : Type} (f : α → α → β) (l : List α) :
    List.zipWith f l l = l.map (fun a => f a a) := by
  induction l with
  | nil => rfl
  | cons x t ih => simp [ih]

/-- cumprodAux preserves length. -/
theorem length_cumprodAux (xs : List ℚ) (acc : ℚ) :
    (cumprodAux acc xs).length = xs.length := by
  induction xs generalizing acc with
  | nil => rfl
  | cons x t ih => simp [cumprodAux, ih]

/-- The running maximum of a chain that starts no lower than the seed is
the chain itself. -/
theorem cummaxAux_eq_of_chain (m : ℚ) (cs : List ℚ)
    (h : List.Chain' (· ≤ ·) (m :: cs)) : cummaxAux m cs = cs := by
  induction cs generalizing m with
  | nil => rfl
  | cons c t ih =>
    rw [List.chain'_cons] at h
    simp [cummaxAux, max_eq_right h.1, ih c h.2]

/-- Running products of factors that are at least one, starting from a
positive seed, are nondecreasing (seed included). -/
theorem cumprodAux_chain (xs : List ℚ) (acc : ℚ) (hacc : 0 < acc)
    (hxs : ∀ x ∈ xs, 1 ≤ x) :
    List.Chain' (· ≤ ·) (acc :: cumprodAux acc xs) := by
  induction xs generalizing acc with
  | nil => simp [cumprodAux]
  | cons x t ih =>
    rw [cumprodAux, List.chain'_cons]
    refine ⟨le_mul_of_one_le_right hacc.le (hxs x (by simp)), ?_⟩
    exact ih (acc * x) (mul_pos hacc (lt_of_lt_of_le one_pos (hxs x (by simp))))
      (fun y hy => hxs y (by simp [hy]))

/-- Daily returns of a positive nondecreasing price series are
nonnegative. -/
theorem pctChange_nonneg (prices : List ℚ) (hpos : ∀ p ∈ prices, 0 < p)
    (hchain : List.Chain' (· ≤ ·) prices) : ∀ r ∈ pctChange prices, 0 ≤ r := by
  induction prices with
  | nil => intro r hr; simp [pctChange] at hr
  | cons p rest ih =>
    cases rest with
    | nil => intro r hr; simp [pctChange] at hr
    | cons q t =>
      intro r hr
      have hstep : pctChange (p :: q :: t) = (q / p - 1) :: pctChange (q :: t) := rfl
      rw [hstep, List.mem_cons] at hr
      rw [List.chain'_cons] at hchain
      rcases hr with h | h
      · have hp : 0 < p := hpos p (by simp)
        have h1 : 1 ≤ q / p := (one_le_div hp).2 hchain.1
        simpa [h] using sub_nonneg.2 h1
      · exact ih (fun x hx => hpos x (by simp [hx])) hchain.2 r h

/-- Sum of a constant list. -/
theorem sum_const_list (xs : List ℚ) (c : ℚ) (h : ∀ x ∈ xs, x = c) :
    xs.sum = xs.length * c := by
  induction xs with
  | nil => simp
  | cons y t ih =>
    have hy : y = c := h y (by simp)
    have ht := ih (fun z hz => h z (by simp [hz]))
    simp only [List.sum_cons, List.length_cons, ht, hy]
    push_cast
    ring

/-- Mean of a nonempty constant list. -/
theorem meanQ_const (xs : List ℚ) (c : ℚ) (hne : xs ≠ [])
    (h : ∀ x ∈ xs, x = c) : meanQ xs = c := by
  have hs := sum_const_list xs c h
  have hn : (xs.length : ℚ) ≠ 0 := by
    simpa using List.length_pos.2 hne |>.ne'
  rw [meanQ, hs, mul_comm, mul_div_assoc, div_self hn, mul_one]

/-- Sample variance of a constant list is zero. -/
theorem varQ_const (xs : List ℚ) (hconst : ∀ x ∈ xs, ∀ y ∈ xs, x = y) :
    varQ xs = 0 := by
  rcases xs with _ | ⟨e, t⟩
  · simp [varQ]
  · have h : ∀ x ∈ e :: t, x = e := fun x hx => hconst x hx e (by simp)
    have hm := meanQ_const (e :: t) e (by simp) h
    have hz : ((e :: t).map (fun x => (x - meanQ (e :: t)) ^ 2)).sum = 0 := by
      apply List.sum_eq_zero
      intro z hz
      obtain ⟨x, hx, rfl⟩ := List.mem_map.1 hz
      rw [h x hx, hm]
      ring
    rw [varQ, hz, zero_div]

/-- np.sqrt(252) is the exact square root of 252. -/
theorem sqrtQ_252 : Flt.sqrtQ 252 = Flt.fin 1 252 := by norm_num [Flt.sqrtQ]

/-- The sharpe value is non-finite on a constant excess-return series. -/
theorem sharpe_value_nonFinite (ex : List ℚ)
    (hconst : ∀ x ∈ ex, ∀ y ∈ ex, x = y) :
    (((Flt.sqrtQ 252).mul (meanF ex)).div (stdF ex)).nonFinite = true := by
  rcases ex with _ | ⟨e, tl⟩
  · simp [meanF, stdF, mulF_nan, Flt.div, Flt.nonFinite]
  · rcases tl with _ | ⟨e2, tl2⟩
    · simp [stdF, divF_nan, Flt.nonFinite]
    · have hv : varQ (e :: e2 :: tl2) = 0 := varQ_const _ hconst
      have hstd : stdF (e :: e2 :: tl2) = Flt.fin 0 1 := by
        simp [stdF, hv, Flt.sqrtQ]
      rw [hstd]
      have hm : (Flt.sqrtQ 252).mul (meanF (e :: e2 :: tl2)) =
          Flt.fin (meanQ (e :: e2 :: tl2)) 252 := by
        rw [sqrtQ_252]
        simp [meanF, Flt.ofQ, Flt.mul]
      rw [hm]
      exact div_fin_zero_nonFinite _ _ _

/-- A concrete four-row price table used by several witnesses (integer
variant of the specification's worked scenario). -/
def dfW : DataFrame :=
  ⟨[0, 1, 2, 3], [("Adj Close", [100, 110, 121, 108])]⟩

/-- The prices stored in `dfW`. -/
def pricesW : List ℚ := [100, 110, 121, 108]

/-- Claim C1: for every price series with N ≥ 2 rows and an Adj Close
field, get_returns produces a return series of length N - 1 whose element
at position i equals price[i+1]/price[i] - 1 (the first date is dropped,
since no return is defined for it). -/
theorem C1_get_returns_shape (df : DataFrame) (prices : List ℚ) (N : ℕ)
    (hc : df.col? "Adj Close" = some prices) (hN : prices.length = N)
    (h2 : 2 ≤ N) (hidx : df.index.length = N)
    (hpos : ∀ p ∈ prices, 0 < p) :
    ∃ rs : Series, get_returns df = .ok rs ∧ rs.length = N - 1 ∧
      ∀ i, i < N - 1 →
        (rs.map (fun lv => lv.2)).getD i 0 =
          prices.getD (i + 1) 0 / prices.getD i 0 - 1 := by
  have hlenp : (pctChange prices).length = N - 1 := by
    simp only [pctChange, List.length_zipWith, List.length_tail, hN]
    omega
  refine ⟨df.index.tail.zip (pctChange prices), ?_, ?_, ?_⟩
  · simp [get_returns, hc]
  · rw [List.length_zip, List.length_tail, hidx, hlenp, min_self]
  · intro i hi
    rw [List.map_snd_zip _ _ (by rw [hlenp, List.length_tail, hidx])]
    have h1 : i < (pctChange prices).length := by omega
    have h2' : i < prices.length := by omega
    have h3 : i + 1 < prices.length := by omega
    rw [List.getD_eq_getElem _ _ h1, List.getD_eq_getElem _ _ h3,
      List.getD_eq_getElem _ _ h2']
    simp [pctChange, List.getElem_zipWith, List.getElem_tail]

/-- Witness for C1 at the concrete four-row table. -/
theorem C1_witness :
    (dfW.col? "Adj Close" = some pricesW ∧ pricesW.length = 4 ∧
      dfW.index.length = 4 ∧ ∀ p ∈ pricesW, 0 < p) ∧
    (∃ rs : Series, get_returns dfW = .ok rs ∧ rs.length = 3 ∧
      ∀ i, i < 3 →
        (rs.map (fun lv => lv.2)).getD i 0 =
          pricesW.getD (i + 1) 0 / pricesW.getD i 0 - 1) :=
  ⟨⟨by decide, by decide, by decide, by decide⟩,
    C1_get_returns_shape dfW pricesW 4 (by decide) (by decide) (by decide)
      (by decide) (by decide)⟩

/-- Claim C2: when the Adj Close column is absent, every metric entry
point (the seven metric functions, the aggregate call, and get_returns)
yields an input error before any arithmetic; no metric value is
produced. -/
theorem C2_missing_column_errors (df : DataFrame) (benchmark : Series)
    (rf : ℚ) (hc : df.col? "Adj Close" = none) :
    calculate_sharpe df rf = .error keyErr ∧
    calculate_sortino df rf = .error keyErr ∧
    calculate_max_drawdown df = .error keyErr ∧
    calculate_volatility df = .error keyErr ∧
    calculate_beta df benchmark = .error keyErr ∧
    calculate_alpha df benchmark rf = .error keyErr ∧
    calculate_correlation df benchmark = .error keyErr ∧
    calculate_metrics df benchmark rf = .error keyErr ∧
    get_returns df = .error "DataFrame must contain an Adj Close column." := by
  have hret : adjCloseReturns df = .error keyErr := by
    simp [adjCloseReturns, hc]
  have hrets : adjCloseReturnSeries df = .error keyErr := by
    simp [adjCloseReturnSeries, hc]
  refine ⟨?_, ?_, ?_, ?_, ?_, ?_, ?_, ?_, ?_⟩ <;>
    simp [calculate_sharpe, calculate_sortino, calculate_max_drawdown,
      calculate_volatility, calculate_beta, calculate_alpha,
      calculate_correlation, calculate_metrics, get_returns, hret, hrets, hc]

/-- Witness for C2 at a table lacking the Adj Close column. -/
theorem C2_witness :
    ((⟨[0, 1], [("Close", [3, 4])]⟩ : DataFrame).col? "Adj Close" = none) ∧
    calculate_sharpe ⟨[0, 1], [("Close", [3, 4])]⟩ 0 = .error keyErr ∧
    calculate_metrics ⟨[0, 1], [("Close", [3, 4])]⟩ [] 0 = .error keyErr :=
  ⟨by decide,
    (C2_missing_column_errors ⟨[0, 1], [("Close", [3, 4])]⟩ [] 0 (by decide)).1,
    (C2_missing_column_errors ⟨[0, 1], [("Close", [3, 4])]⟩ [] 0 (by decide)).2.2.2.2.2.2.2.1⟩

/-- Claim C10: for every price table with fewer than 2 rows (so the
derived return series is empty), calculate_sharpe_ratio,
calculate_volatility and calculate_max_drawdown do not raise an input
error but return nan. -/
theorem C10_short_series_nan (df : DataFrame) (prices : List ℚ) (rf : ℚ)
    (hc : df.col? "Adj Close" = some prices) (h2 : prices.length < 2) :
    calculate_sharpe df rf = .ok .nan ∧
    calculate_volatility df = .ok .nan ∧
    calculate_max_drawdown df = .ok .nan := by
  have hret : adjCloseReturns df = .ok [] := by
    match prices, h2 with
    | [], _ => simp [adjCloseReturns, hc, pctChange]
    | [p], _ => simp [adjCloseReturns, hc, pctChange]
  refine ⟨?_, ?_, ?_⟩ <;>
    simp [calculate_sharpe, calculate_volatility, calculate_max_drawdown,
      hret, meanF, stdF, cumprod, cumprodAux, cummax, listMinF,
      Flt.mul, Flt.div, Flt.sqrtQ]

/-- Claim C3: the aggregate call returns a mapping with exactly the seven
keys in the fixed order Sharpe Ratio, Sortino Ratio, Max Drawdown,
Volatility, Beta, Alpha, Correlation, and the value under each key equals
the result of the corresponding individually-called metric function on
the same input. -/
theorem C3_aggregate_matches_individuals (df : DataFrame) (benchmark : Series)
    (rf : ℚ) (prices : List ℚ) (hc : df.col? "Adj Close" = some prices)
    (hlen : benchmark.length = (pctChange prices).length) :
    ∃ s so md v b a c,
      calculate_sharpe df rf = .ok s ∧
      calculate_sortino df rf = .ok so ∧
      calculate_max_drawdown df = .ok md ∧
      calculate_volatility df = .ok v ∧
      calculate_beta df benchmark = .ok b ∧
      calculate_alpha df benchmark rf = .ok a ∧
      calculate_correlation df benchmark = .ok c ∧
      calculate_metrics df benchmark rf =
        .ok [("Sharpe Ratio", s), ("Sortino Ratio", so), ("Max Drawdown", md),
             ("Volatility", v), ("Beta", b), ("Alpha", a), ("Correlation", c)] := by
  have hret : adjCloseReturns df = .ok (pctChange prices) := by
    simp [adjCloseReturns, hc]
  have hrets : adjCloseReturnSeries df = .ok (df.index.tail.zip (pctChange prices)) := by
    simp [adjCloseReturnSeries, hc]
  have hcov : npCov (pctChange prices) (benchmark.map (fun lv => lv.2)) =
      .ok (covSampleF (pctChange prices) (benchmark.map (fun lv => lv.2))) := by
    simp [npCov, hlen]
  obtain ⟨s, hs⟩ : ∃ s, calculate_sharpe df rf = .ok s := by
    simp [calculate_sharpe, hret]
  obtain ⟨so, hso⟩ : ∃ so, calculate_sortino df rf = .ok so := by
    simp [calculate_sortino, hret]
  obtain ⟨md, hmd⟩ : ∃ md, calculate_max_drawdown df = .ok md := by
    simp [calculate_max_drawdown, hret]
  obtain ⟨v, hv⟩ : ∃ v, calculate_volatility df = .ok v := by
    simp [calculate_volatility, hret]
  obtain ⟨b, hb⟩ : ∃ b, calculate_beta df benchmark = .ok b := by
    simp [calculate_beta, hret, hcov]
  obtain ⟨a, ha⟩ : ∃ a, calculate_alpha df benchmark rf = .ok a := by
    simp [calculate_alpha, calculate_beta, hret, hcov]
  obtain ⟨c, hco⟩ : ∃ c, calculate_correlation df benchmark = .ok c := by
    simp [calculate_correlation, hrets]
  exact ⟨s, so, md, v, b, a, c, hs, hso, hmd, hv, hb, ha, hco,
    by simp [calculate_metrics, hs, hso, hmd, hv, hb, ha, hco]⟩

/-- Witness for C3 at the concrete four-row table with a three-row
benchmark. -/
theorem C3_witness :
    (dfW.col? "Adj Close" = some pricesW ∧
      ([(1, 1), (2, 0), (3, 2)] : Series).length = (pctChange pricesW).length) ∧
    (∃ s so md v b a c,
      calculate_sharpe dfW 0 = .ok s ∧
      calculate_sortino dfW 0 = .ok so ∧
      calculate_max_drawdown dfW = .ok md ∧
      calculate_volatility dfW = .ok v ∧
      calculate_beta dfW [(1, 1), (2, 0), (3, 2)] = .ok b ∧
      calculate_alpha dfW [(1, 1), (2, 0), (3, 2)] 0 = .ok a ∧
      calculate_correlation dfW [(1, 1), (2, 0), (3, 2)] = .ok c ∧
      calculate_metrics dfW [(1, 1), (2, 0), (3, 2)] 0 =
        .ok [("Sharpe Ratio", s), ("Sortino Ratio", so), ("Max Drawdown", md),
             ("Volatility", v), ("Beta", b), ("Alpha", a), ("Correlation", c)]) :=
  ⟨⟨by decide, by decide⟩,
    C3_aggregate_matches_individuals dfW [(1, 1), (2, 0), (3, 2)] 0 pricesW
      (by decide) (by decide)⟩

/-- Claim C4: for every price series with at least two rows and strictly
positive prices, calculate_max_drawdown returns a value that is at most
zero, and exactly zero when the price series is nondecreasing. -/
theorem C4_max_drawdown_nonpos (df : DataFrame) (prices : List ℚ)
    (hc : df.col? "Adj Close" = some prices) (h2 : 2 ≤ prices.length)
    (hpos : ∀ p ∈ prices, 0 < p) :
    ∃ q : ℚ, calculate_max_drawdown df = .ok (Flt.ofQ q) ∧ q ≤ 0 ∧
      (List.Chain' (· ≤ ·) prices → q = 0) := by
  have hret : adjCloseReturns df = .ok (pctChange prices) := by
    simp [adjCloseReturns, hc]
  have hlen : (pctChange prices).length = prices.length - 1 := by
    simp only [pctChange, List.length_zipWith, List.length_tail]
    omega
  obtain ⟨c, ct, hcc⟩ : ∃ c ct,
      cumprod ((pctChange prices).map (fun r => 1 + r)) = c :: ct := by
    have hl : (cumprod ((pctChange prices).map (fun r => 1 + r))).length =
        prices.length - 1 := by
      rw [cumprod, length_cumprodAux, List.length_map, hlen]
    cases hcp : cumprod ((pctChange prices).map (fun r => 1 + r)) with
    | nil => rw [hcp] at hl; simp at hl; omega
    | cons c ct => exact ⟨c, ct, rfl⟩
  have hdd0 : (c - c) / c = 0 := by simp
  refine ⟨(List.zipWith (fun x p => (x - p) / p) ct (cummaxAux c ct)).foldl min 0 * 100,
    ?_, ?_, ?_⟩
  · simp only [calculate_max_drawdown, hret, bindE_ok, pureE, hcc, cummax]
    have hzip : List.zipWith (fun x p => (x - p) / p) (c :: ct) (c :: cummaxAux c ct) =
        ((c - c) / c) :: List.zipWith (fun x p => (x - p) / p) ct (cummaxAux c ct) := rfl
    rw [hzip, hdd0]
    simp [listMinF, Flt.ofQ, Flt.mul]
  · have hm := foldl_min_le_init
      (List.zipWith (fun x p => (x - p) / p) ct (cummaxAux c ct)) 0
    nlinarith
  · intro hch
    have hr0 : ∀ r ∈ pctChange prices, 0 ≤ r := pctChange_nonneg prices hpos hch
    have hos1 : ∀ x ∈ (pctChange prices).map (fun r => 1 + r), 1 ≤ x := by
      intro x hx
      obtain ⟨r, hr, rfl⟩ := List.mem_map.1 hx
      linarith [hr0 r hr]
    have hchain : List.Chain' (· ≤ ·) (c :: ct) := by
      have h1 : List.Chain' (· ≤ ·)
          (1 :: cumprodAux 1 ((pctChange prices).map (fun r => 1 + r))) :=
        cumprodAux_chain _ 1 one_pos hos1
      have h2' := h1.tail
      rw [List.tail_cons] at h2'
      rw [← cumprod, hcc] at h2'
      exact h2'
    rw [cummaxAux_eq_of_chain c ct hchain,
      zipWith_self_eq_map (fun x p => (x - p) / p) ct]
    have hz : (ct.map (fun x => (x - x) / x)).foldl min 0 = 0 := by
      apply foldl_min_zeros
      intro y hy
      obtain ⟨x, hx, rfl⟩ := List.mem_map.1 hy
      simp
    rw [hz, zero_mul]

/-- Witness for C4 at the concrete four-row table. -/
theorem C4_witness :
    (dfW.col? "Adj Close" = some pricesW ∧ 2 ≤ pricesW.length ∧
      ∀ p ∈ pricesW, 0 < p) ∧
    (∃ q : ℚ, calculate_max_drawdown dfW = .ok (Flt.ofQ q) ∧ q ≤ 0 ∧
      (List.Chain' (· ≤ ·) pricesW → q = 0)) :=
  ⟨⟨by decide, by decide, by decide⟩,
    C4_max_drawdown_nonpos dfW pricesW (by decide) (by decide) (by decide)⟩

/-- Claim C5: on an input whose excess-return series is constant,
calculate_sharpe_ratio does not raise and returns a non-finite value, and
likewise calculate_sortino_ratio does not raise and returns a non-finite
value when no downside excess returns exist; the zero-denominator
degeneracies surface as non-finite values, never as errors. -/
theorem C5_zero_denominator_not_error (df : DataFrame) (rf : ℚ)
    (prices : List ℚ) (hc : df.col? "Adj Close" = some prices) :
    ((∀ x ∈ (pctChange prices).map (fun r => r - rf / 252),
        ∀ y ∈ (pctChange prices).map (fun r => r - rf / 252), x = y) →
      ∃ f, calculate_sharpe df rf = .ok f ∧ f.nonFinite = true) ∧
    ((((pctChange prices).map (fun r => r - rf / 252)).filter
        (fun r => decide (r < 0)) = []) →
      ∃ f, calculate_sortino df rf = .ok f ∧ f.nonFinite = true) := by
  have hret : adjCloseReturns df = .ok (pctChange prices) := by
    simp [adjCloseReturns, hc]
  constructor
  · intro hconst
    refine ⟨((Flt.sqrtQ 252).mul
        (meanF ((pctChange prices).map (fun r => r - rf / 252)))).div
        (stdF ((pctChange prices).map (fun r => r - rf / 252))), ?_, ?_⟩
    · simp [calculate_sharpe, hret]
    · exact sharpe_value_nonFinite _ hconst
  · intro hdown
    refine ⟨((Flt.sqrtQ 252).mul
        (meanF ((pctChange prices).map (fun r => r - rf / 252)))).div
        (stdF (((pctChange prices).map (fun r => r - rf / 252)).filter
          (fun r => decide (r < 0)))), ?_, ?_⟩
    · simp [calculate_sortino, hret]
    · rw [hdown]
      have hstd : stdF [] = .nan := rfl
      rw [hstd, divF_nan]
      rfl

/-- Witness for C5 at a constant three-row price table. -/
theorem C5_witness :
    ((⟨[0, 1, 2], [("Adj Close", [1, 1, 1])]⟩ : DataFrame).col? "Adj Close"
        = some [1, 1, 1]) ∧
    (∃ f, calculate_sharpe ⟨[0, 1, 2], [("Adj Close", [1, 1, 1])]⟩ 0 = .ok f ∧
      f.nonFinite = true) ∧
    (∃ f, calculate_sortino ⟨[0, 1, 2], [("Adj Close", [1, 1, 1])]⟩ 0 = .ok f ∧
      f.nonFinite = true) :=
  ⟨by decide,
    (C5_zero_denominator_not_error ⟨[0, 1, 2], [("Adj Close", [1, 1, 1])]⟩ 0
      [1, 1, 1] (by decide)).1 (by simp [pctChange]),
    (C5_zero_denominator_not_error ⟨[0, 1, 2], [("Adj Close", [1, 1, 1])]⟩ 0
      [1, 1, 1] (by decide)).2 (by simp [pctChange])⟩

/-- Sample covariance of a list with itself is its sample variance. -/
theorem covQ_self (xs : List ℚ) : covQ xs xs = varQ xs := by
  rw [covQ, varQ, centeredSum, zipWith_self_eq_map]
  have hf : (fun x => (x - meanQ xs) * (x - meanQ xs)) =
      fun x => (x - meanQ xs) ^ 2 := funext fun x => (sq _).symm
  rw [hf]

/-- Beta of the stock against its own return series is exactly one
whenever the sample variance of the returns is nonzero. -/
theorem beta_self_eq_one (df : DataFrame) (prices : List ℚ) (bench : Series)
    (hc : df.col? "Adj Close" = some prices)
    (hb : bench.map (fun lv => lv.2) = pctChange prices)
    (h2 : 2 ≤ (pctChange prices).length)
    (hv : varQ (pctChange prices) ≠ 0) :
    calculate_beta df bench = .ok (Flt.ofQ 1) := by
  have hret : adjCloseReturns df = .ok (pctChange prices) := by
    simp [adjCloseReturns, hc]
  have h2' : ¬ (pctChange prices).length < 2 := by omega
  simp only [calculate_beta, hret, bindE_ok, hb]
  simp only [npCov, if_pos rfl, covSampleF, varF, h2', if_false, bindE_ok, pureE]
  simp [covQ_self, Flt.ofQ, Flt.div, hv, div_self hv]

/-- A three-row price table with nonconstant returns, for the self-beta
and self-alpha witnesses. -/
def dfV : DataFrame := ⟨[0, 1, 2], [("Adj Close", [1, 2, 1])]⟩

/-- The return series derived from dfV. -/
theorem pct_dfV : pctChange [1, 2, 1] = [1, -(1 : ℚ)/2] := by
  norm_num [pctChange]

/-- The returns of dfV have nonzero sample variance. -/
theorem var_dfV : varQ (pctChange [(1 : ℚ), 2, 1]) ≠ 0 := by
  rw [pct_dfV]
  norm_num [varQ, meanQ]

/-- Claim C6: for every price series whose derived return series has
nonzero variance, calculate_beta with the series' own returns supplied as
the benchmark equals exactly one. -/
theorem C6_beta_self (df : DataFrame) (prices : List ℚ) (bench : Series)
    (hc : df.col? "Adj Close" = some prices)
    (hb : bench.map (fun lv => lv.2) = pctChange prices)
    (h2 : 2 ≤ (pctChange prices).length)
    (hv : varQ (pctChange prices) ≠ 0) :
    calculate_beta df bench = .ok (Flt.ofQ 1) :=
  beta_self_eq_one df prices bench hc hb h2 hv

/-- Witness for C6: dfV against its own returns (with fresh labels). -/
theorem C6_witness :
    (dfV.col? "Adj Close" = some [1, 2, 1] ∧
      ([(5, 1), (6, -(1 : ℚ)/2)] : Series).map (fun lv => lv.2) =
        pctChange [1, 2, 1] ∧
      2 ≤ (pctChange [(1 : ℚ), 2, 1]).length ∧
      varQ (pctChange [(1 : ℚ), 2, 1]) ≠ 0) ∧
    calculate_beta dfV [(5, 1), (6, -(1 : ℚ)/2)] = .ok (Flt.ofQ 1) :=
  ⟨⟨by decide, by simp [pct_dfV], by decide, var_dfV⟩,
    C6_beta_self dfV [1, 2, 1] [(5, 1), (6, -(1 : ℚ)/2)] (by decide)
      (by simp [pct_dfV]) (by decide) var_dfV⟩

/-- Claim C7: for every price series whose derived return series has
nonzero variance, calculate_alpha with the series' own returns as the
benchmark and the same risk-free rate equals exactly zero. -/
theorem C7_alpha_self (df : DataFrame) (prices : List ℚ) (bench : Series)
    (rf : ℚ) (hc : df.col? "Adj Close" = some prices)
    (hb : bench.map (fun lv => lv.2) = pctChange prices)
    (h2 : 2 ≤ (pctChange prices).length)
    (hv : varQ (pctChange prices) ≠ 0) :
    calculate_alpha df bench rf = .ok (Flt.ofQ 0) := by
  have hret : adjCloseReturns df = .ok (pctChange prices) := by
    simp [adjCloseReturns, hc]
  have hbeta := beta_self_eq_one df prices bench hc hb h2 hv
  have hexb : bench.map (fun lv => lv.2 - rf / 252) =
      (pctChange prices).map (fun r => r - rf / 252) := by
    rw [← hb, List.map_map]
    rfl
  have hne : pctChange prices ≠ [] := by
    intro h
    rw [h] at h2
    simp at h2
  simp only [calculate_alpha, hret, bindE_ok, hbeta, pureE, hexb]
  simp [meanF, hne, Flt.ofQ, Flt.mul, Flt.sub]

/-- Witness for C7: dfV against its own returns, risk-free rate zero. -/
theorem C7_witness :
    (dfV.col? "Adj Close" = some [1, 2, 1] ∧
      ([(5, 1), (6, -(1 : ℚ)/2)] : Series).map (fun lv => lv.2) =
        pctChange [1, 2, 1] ∧
      2 ≤ (pctChange [(1 : ℚ), 2, 1]).length ∧
      varQ (pctChange [(1 : ℚ), 2, 1]) ≠ 0) ∧
    calculate_alpha dfV [(5, 1), (6, -(1 : ℚ)/2)] 0 = .ok (Flt.ofQ 0) :=
  ⟨⟨by decide, by simp [pct_dfV], by decide, var_dfV⟩,
    C7_alpha_self dfV [1, 2, 1] [(5, 1), (6, -(1 : ℚ)/2)] 0 (by decide)
      (by simp [pct_dfV]) (by decide) var_dfV⟩

/-- Claim C8: beta, alpha and correlation are computed without any
internal validation that the benchmark is date-aligned with the subject
return series: with the index labels left completely arbitrary, the
computation proceeds and returns a value (correlation for every benchmark
whatsoever, beta and alpha whenever the value counts agree, which is the
shape numpy's covariance stacking itself needs). -/
theorem C8_no_alignment_validation (df : DataFrame) (prices : List ℚ)
    (bench : Series) (rf : ℚ) (hc : df.col? "Adj Close" = some prices) :
    (∃ f, calculate_correlation df bench = .ok f) ∧
    (bench.length = (pctChange prices).length →
      (∃ f, calculate_beta df bench = .ok f) ∧
      (∃ g, calculate_alpha df bench rf = .ok g)) := by
  have hret : adjCloseReturns df = .ok (pctChange prices) := by
    simp [adjCloseReturns, hc]
  have hrets : adjCloseReturnSeries df = .ok (df.index.tail.zip (pctChange prices)) := by
    simp [adjCloseReturnSeries, hc]
  refine ⟨?_, fun hlen => ⟨?_, ?_⟩⟩
  · simp [calculate_correlation, hrets]
  · simp [calculate_beta, hret, npCov, hlen]
  · simp [calculate_alpha, calculate_beta, hret, npCov, hlen]

/-- Witness for C8: a benchmark whose dates are disjoint from the
table's dates is accepted by all three metrics. -/
theorem C8_witness :
    (dfW.col? "Adj Close" = some pricesW ∧
      ([(50, 1), (60, 2), (70, 3)] : Series).length = (pctChange pricesW).length) ∧
    (∃ f, calculate_correlation dfW [(50, 1), (60, 2), (70, 3)] = .ok f) ∧
    (∃ f, calculate_beta dfW [(50, 1), (60, 2), (70, 3)] = .ok f) ∧
    (∃ g, calculate_alpha dfW [(50, 1), (60, 2), (70, 3)] 0 = .ok g) :=
  ⟨⟨by decide, by decide⟩,
    (C8_no_alignment_validation dfW pricesW [(50, 1), (60, 2), (70, 3)] 0
      (by decide)).1,
    ((C8_no_alignment_validation dfW pricesW [(50, 1), (60, 2), (70, 3)] 0
      (by decide)).2 (by decide)).1,
    ((C8_no_alignment_validation dfW pricesW [(50, 1), (60, 2), (70, 3)] 0
      (by decide)).2 (by decide)).2⟩

/-- One induction step of the Cauchy-Schwarz inequality for sums. -/
theorem cs_step (a b S X Y : ℚ) (ih : S ^ 2 ≤ X * Y) (hX : 0 ≤ X)
    (hY : 0 ≤ Y) : (a * b + S) ^ 2 ≤ (a ^ 2 + X) * (b ^ 2 + Y) := by
  rcases eq_or_lt_of_le hY with hY0 | hYpos
  · have hS : S = 0 := by nlinarith [sq_nonneg S]
    subst hS
    nlinarith [mul_nonneg hX (sq_nonneg b)]
  · nlinarith [ih, sq_nonneg (a * Y - b * S), mul_pos hYpos hYpos,
      sq_nonneg (a * b), mul_nonneg hX hY]

/-- Cauchy-Schwarz inequality for a list of pairs of rationals. -/
theorem list_cauchy_schwarz (l : List (ℚ × ℚ)) :
    ((l.map (fun p => p.1 * p.2)).sum) ^ 2 ≤
      ((l.map (fun p => p.1 ^ 2)).sum) * ((l.map (fun p => p.2 ^ 2)).sum) := by
  induction l with
  | nil => simp
  | cons p t ih =>
    simp only [List.map_cons, List.sum_cons]
    have hX : 0 ≤ (t.map (fun p => p.1 ^ 2)).sum :=
      List.sum_nonneg (by
        intro x hx
        obtain ⟨q, hq, rfl⟩ := List.mem_map.1 hx
        positivity)
    have hY : 0 ≤ (t.map (fun p => p.2 ^ 2)).sum :=
      List.sum_nonneg (by
        intro x hx
        obtain ⟨q, hq, rfl⟩ := List.mem_map.1 hx
        positivity)
    exact cs_step p.1 p.2 _ _ _ ih hX hY

/-- zipWith as a map over the zipped pairs. -/
theorem zipWith_eq_map_zip (f : ℚ → ℚ → ℚ) (xs ys : List ℚ) :
    List.zipWith f xs ys = (xs.zip ys).map (fun p => f p.1 p.2) := by
  induction xs generalizing ys with
  | nil => simp
  | cons x t ih => cases ys <;> simp [ih]

/-- The self centred sum is the sum of squared deviations. -/
theorem centeredSum_self (xs : List ℚ) :
    centeredSum xs xs = (xs.map (fun x => (x - meanQ xs) ^ 2)).sum := by
  rw [centeredSum, zipWith_self_eq_map]
  have hf : (fun x => (x - meanQ xs) * (x - meanQ xs)) =
      fun x => (x - meanQ xs) ^ 2 := funext fun x => (sq _).symm
  rw [hf]

/-- Cauchy-Schwarz for centred sums of two equal-length samples. -/
theorem centeredSum_sq_le (xs ys : List ℚ) (hlen : xs.length = ys.length) :
    (centeredSum xs ys) ^ 2 ≤ centeredSum xs xs * centeredSum ys ys := by
  have key := list_cauchy_schwarz ((xs.zip ys).map
    (fun p => (p.1 - meanQ xs, p.2 - meanQ ys)))
  rw [List.map_map, List.map_map, List.map_map] at key
  have e1 : centeredSum xs ys =
      ((xs.zip ys).map ((fun p : ℚ × ℚ => p.1 * p.2) ∘
        (fun p : ℚ × ℚ => (p.1 - meanQ xs, p.2 - meanQ ys)))).sum := by
    rw [centeredSum, zipWith_eq_map_zip]
    rfl
  have e2 : centeredSum xs xs =
      ((xs.zip ys).map ((fun p : ℚ × ℚ => p.1 ^ 2) ∘
        (fun p : ℚ × ℚ => (p.1 - meanQ xs, p.2 - meanQ ys)))).sum := by
    rw [centeredSum_self]
    have hcomp : ((fun p : ℚ × ℚ => p.1 ^ 2) ∘
        (fun p : ℚ × ℚ => (p.1 - meanQ xs, p.2 - meanQ ys))) =
        ((fun x : ℚ => (x - meanQ xs) ^ 2) ∘ Prod.fst) := rfl
    rw [hcomp, ← List.map_map, List.map_fst_zip xs ys (le_of_eq hlen)]
  have e3 : centeredSum ys ys =
      ((xs.zip ys).map ((fun p : ℚ × ℚ => p.2 ^ 2) ∘
        (fun p : ℚ × ℚ => (p.1 - meanQ xs, p.2 - meanQ ys)))).sum := by
    rw [centeredSum_self]
    have hcomp : ((fun p : ℚ × ℚ => p.2 ^ 2) ∘
        (fun p : ℚ × ℚ => (p.1 - meanQ xs, p.2 - meanQ ys))) =
        ((fun y : ℚ => (y - meanQ ys) ^ 2) ∘ Prod.snd) := rfl
    rw [hcomp, ← List.map_map, List.map_snd_zip xs ys (ge_of_eq hlen)]
  rw [e1, e2, e3]
  exact key

/-- Sample variance is nonnegative once it is defined (two or more
observations). -/
theorem varQ_nonneg (xs : List ℚ) (h2 : 2 ≤ xs.length) : 0 ≤ varQ xs := by
  apply div_nonneg
  · apply List.sum_nonneg
    intro x hx
    obtain ⟨q, hq, rfl⟩ := List.mem_map.1 hx
    positivity
  · have : (2 : ℚ) ≤ (xs.length : ℚ) := by exact_mod_cast h2
    linarith

/-- The self centred sum is the sample variance scaled back by the ddof
denominator. -/
theorem centeredSum_self_eq (xs : List ℚ) (h2 : 2 ≤ xs.length) :
    centeredSum xs xs = varQ xs * ((xs.length : ℚ) - 1) := by
  have hn : ((xs.length : ℚ) - 1) ≠ 0 := by
    have : (2 : ℚ) ≤ (xs.length : ℚ) := by exact_mod_cast h2
    linarith
  rw [centeredSum_self, varQ, div_mul_cancel₀ _ hn]

/-- The inner join that pandas performs inside Series.corr collapses to a
positional pairing when the two series carry identical label sequences
without duplicates. -/
theorem filterMap_lookup_zip (L : List Nat) (xs ys : List ℚ)
    (hnd : L.Nodup) (hx : xs.length = L.length) (hy : ys.length = L.length) :
    (L.zip xs).filterMap
      (fun lv => ((L.zip ys).lookup lv.1).map (fun w => (lv.2, w))) =
      xs.zip ys := by
  induction L generalizing xs ys with
  | nil =>
    have hxe : xs = [] := List.length_eq_zero.1 (by simpa using hx)
    subst hxe
    simp
  | cons a L' ih =>
    cases xs with
    | nil => simp at hx
    | cons x xs' =>
      cases ys with
      | nil => simp at hy
      | cons y ys' =>
        rw [List.nodup_cons] at hnd
        have hx' : xs'.length = L'.length := by simpa using hx
        have hy' : ys'.length = L'.length := by simpa using hy
        have hhead : List.lookup a (((a :: L').zip (y :: ys'))) = some y := by
          simp [List.lookup]
        have hstep : ((a :: L').zip (x :: xs')) = (a, x) :: L'.zip xs' := rfl
        rw [hstep, List.filterMap_cons]
        rw [hhead]
        simp only [Option.map_some']
        congr 1
        rw [List.filterMap_congr (g := fun lv =>
          ((L'.zip ys').lookup lv.1).map (fun w => (lv.2, w)))]
        · exact ih xs' ys' hnd.2 hx' hy'
        · intro lv hlv
          have hmem : lv.1 ∈ L' := (List.of_mem_zip
            (by exact (Prod.mk.eta (p := lv) ▸ hlv))).1
          have hne : lv.1 ≠ a := fun h => hnd.1 (h ▸ hmem)
          have : List.lookup lv.1 ((a :: L').zip (y :: ys')) =
              List.lookup lv.1 (L'.zip ys') := by
            have hz : ((a :: L').zip (y :: ys')) = (a, y) :: L'.zip ys' := rfl
            rw [hz]
            simp [List.lookup, beq_eq_false_iff_ne.2 hne]
          rw [this]

/-- Value-level description of the correlation computation once the two
samples are aligned: the computed float is the exact Pearson coefficient
and lies in the unit interval. -/
theorem corr_value (xs ys : List ℚ) (hlen : ys.length = xs.length)
    (h2 : 2 ≤ xs.length) (hvx : varQ xs ≠ 0) (hvy : varQ ys ≠ 0) :
    ((covSampleF xs ys).div ((stdF xs).mul (stdF ys))) =
      Flt.fin (covQ xs ys) ((varQ xs * varQ ys)⁻¹) ∧
    (Flt.fin (covQ xs ys) ((varQ xs * varQ ys)⁻¹)).toReal = pearson xs ys ∧
    -1 ≤ (Flt.fin (covQ xs ys) ((varQ xs * varQ ys)⁻¹)).toReal ∧
    (Flt.fin (covQ xs ys) ((varQ xs * varQ ys)⁻¹)).toReal ≤ 1 := by
  have h2y : 2 ≤ ys.length := by omega
  have hvx0 : 0 < varQ xs := (varQ_nonneg xs h2).lt_of_ne (Ne.symm hvx)
  have hvy0 : 0 < varQ ys := (varQ_nonneg ys h2y).lt_of_ne (Ne.symm hvy)
  have hx2 : ¬ xs.length < 2 := by omega
  have hy2 : ¬ ys.length < 2 := by omega
  have hn1 : (0 : ℝ) < (xs.length : ℝ) - 1 := by
    have : (2 : ℝ) ≤ (xs.length : ℝ) := by exact_mod_cast h2
    linarith
  have hXpos : 0 < centeredSum xs xs := by
    rw [centeredSum_self_eq xs h2]
    have : (0 : ℚ) < (xs.length : ℚ) - 1 := by
      have : (2 : ℚ) ≤ (xs.length : ℚ) := by exact_mod_cast h2
      linarith
    exact mul_pos hvx0 this
  have hYpos : 0 < centeredSum ys ys := by
    rw [centeredSum_self_eq ys h2y]
    have : (0 : ℚ) < (ys.length : ℚ) - 1 := by
      have : (2 : ℚ) ≤ (ys.length : ℚ) := by exact_mod_cast h2y
      linarith
    exact mul_pos hvy0 this
  have hXr : (0 : ℝ) < (centeredSum xs xs : ℝ) := by exact_mod_cast hXpos
  have hYr : (0 : ℝ) < (centeredSum ys ys : ℝ) := by exact_mod_cast hYpos
  have hXYr : (0 : ℝ) < (centeredSum xs xs : ℝ) * (centeredSum ys ys : ℝ) :=
    mul_pos hXr hYr
  have hsq : (0 : ℝ) < Real.sqrt ((centeredSum xs xs : ℝ) * (centeredSum ys ys : ℝ)) :=
    Real.sqrt_pos.2 hXYr
  have hvarx : ((varQ xs : ℚ) : ℝ) = (centeredSum xs xs : ℝ) / ((xs.length : ℝ) - 1) := by
    have h := centeredSum_self_eq xs h2
    have h' : ((centeredSum xs xs : ℚ) : ℝ) =
        ((varQ xs : ℚ) : ℝ) * (((xs.length : ℚ) : ℝ) - 1) := by
      exact_mod_cast congrArg (fun q : ℚ => (q : ℝ)) h
    rw [eq_div_iff (by linarith)]
    push_cast at h' ⊢
    linarith
  have hvary : ((varQ ys : ℚ) : ℝ) = (centeredSum ys ys : ℝ) / ((xs.length : ℝ) - 1) := by
    have h := centeredSum_self_eq ys h2y
    have h' : ((centeredSum ys ys : ℚ) : ℝ) =
        ((varQ ys : ℚ) : ℝ) * (((ys.length : ℚ) : ℝ) - 1) := by
      exact_mod_cast congrArg (fun q : ℚ => (q : ℝ)) h
    rw [eq_div_iff (by linarith)]
    push_cast at h' ⊢
    rw [hlen] at h'
    linarith
  have hcovr : ((covQ xs ys : ℚ) : ℝ) =
      (centeredSum xs ys : ℝ) / ((xs.length : ℝ) - 1) := by
    rw [covQ]
    push_cast
    ring
  have htoReal : (Flt.fin (covQ xs ys) ((varQ xs * varQ ys)⁻¹)).toReal =
      (centeredSum xs ys : ℝ) /
        Real.sqrt ((centeredSum xs xs : ℝ) * (centeredSum ys ys : ℝ)) := by
    show ((covQ xs ys : ℚ) : ℝ) * Real.sqrt (((varQ xs * varQ ys)⁻¹ : ℚ) : ℝ) = _
    have hc1 : (((varQ xs * varQ ys)⁻¹ : ℚ) : ℝ) =
        (((xs.length : ℝ) - 1) ^ 2) /
          ((centeredSum xs xs : ℝ) * (centeredSum ys ys : ℝ)) := by
      push_cast
      rw [hvarx, hvary]
      field_simp
      ring
    rw [hc1, hcovr, Real.sqrt_div (sq_nonneg _), Real.sqrt_sq hn1.le]
    field_simp
  have hcs : ((centeredSum xs ys : ℚ) : ℝ) ^ 2 ≤
      (centeredSum xs xs : ℝ) * (centeredSum ys ys : ℝ) := by
    exact_mod_cast centeredSum_sq_le xs ys hlen.symm
  have habs : |(centeredSum xs ys : ℝ)| ≤
      Real.sqrt ((centeredSum xs xs : ℝ) * (centeredSum ys ys : ℝ)) := by
    rw [← Real.sqrt_sq_eq_abs]
    exact Real.sqrt_le_sqrt hcs
  have hbound : |(Flt.fin (covQ xs ys) ((varQ xs * varQ ys)⁻¹)).toReal| ≤ 1 := by
    rw [htoReal, abs_div, abs_of_pos hsq]
    exact (div_le_one hsq).2 habs
  refine ⟨?_, ?_, (abs_le.1 hbound).1, (abs_le.1 hbound).2⟩
  · simp only [covSampleF, stdF, hx2, hy2, if_false, Flt.sqrtQ,
      if_neg (not_lt.2 hvx0.le), if_neg (not_lt.2 hvy0.le), if_neg hvx,
      if_neg hvy, Flt.ofQ, Flt.mul, Flt.div]
    norm_num
  · rw [htoReal, pearson, Real.sqrt_mul hXr.le]

/-- Claim C9: for a date-aligned benchmark of the same length as the
derived return series, both with nonzero sample variance,
calculate_correlation returns exactly the Pearson correlation
coefficient, which lies in the closed interval from -1 to 1. -/
theorem C9_correlation_pearson (df : DataFrame) (prices ys : List ℚ)
    (hc : df.col? "Adj Close" = some prices)
    (hidx : df.index.length = prices.length)
    (hnd : df.index.tail.Nodup)
    (hlen : ys.length = (pctChange prices).length)
    (h2 : 2 ≤ (pctChange prices).length)
    (hvx : varQ (pctChange prices) ≠ 0) (hvy : varQ ys ≠ 0) :
    ∃ f, calculate_correlation df (df.index.tail.zip ys) = .ok f ∧
      f.toReal = pearson (pctChange prices) ys ∧
      -1 ≤ f.toReal ∧ f.toReal ≤ 1 := by
  have hrets : adjCloseReturnSeries df =
      .ok (df.index.tail.zip (pctChange prices)) := by
    simp [adjCloseReturnSeries, hc]
  have hL : df.index.tail.length = (pctChange prices).length := by
    rw [List.length_tail, hidx]
    simp only [pctChange, List.length_zipWith, List.length_tail]
    omega
  have hjoin := filterMap_lookup_zip df.index.tail (pctChange prices) ys
    hnd hL.symm (by rw [hlen, ← hL])
  obtain ⟨hval, htr, hlb, hub⟩ := corr_value (pctChange prices) ys hlen h2 hvx hvy
  have hfst : ((pctChange prices).zip ys).map (fun p => p.1) = pctChange prices :=
    List.map_fst_zip (pctChange prices) ys (le_of_eq hlen.symm)
  have hsnd : ((pctChange prices).zip ys).map (fun p => p.2) = ys :=
    List.map_snd_zip (pctChange prices) ys (ge_of_eq hlen.symm)
  refine ⟨Flt.fin (covQ (pctChange prices) ys)
    ((varQ (pctChange prices) * varQ ys)⁻¹), ?_, htr, hlb, hub⟩
  simp only [calculate_correlation, hrets, bindE_ok, pureE]
  rw [hjoin, hfst, hsnd, hval]

/-- The benchmark values of the C9 witness have nonzero variance. -/
theorem var01 : varQ [(0 : ℚ), 1] ≠ 0 := by
  norm_num [varQ, meanQ]

/-- Witness for C9: dfV against the date-aligned benchmark with values
0 and 1. -/
theorem C9_witness :
    (dfV.col? "Adj Close" = some [1, 2, 1] ∧
      dfV.index.length = ([1, 2, 1] : List ℚ).length ∧
      dfV.index.tail.Nodup ∧
      ([(0 : ℚ), 1] : List ℚ).length = (pctChange [1, 2, 1]).length ∧
      2 ≤ (pctChange [(1 : ℚ), 2, 1]).length ∧
      varQ (pctChange [(1 : ℚ), 2, 1]) ≠ 0 ∧ varQ [(0 : ℚ), 1] ≠ 0) ∧
    (∃ f, calculate_correlation dfV (dfV.index.tail.zip [0, 1]) = .ok f ∧
      f.toReal = pearson (pctChange [1, 2, 1]) [0, 1] ∧
      -1 ≤ f.toReal ∧ f.toReal ≤ 1) :=
  ⟨⟨by decide, by decide, by decide, by decide, by decide, var_dfV, var01⟩,
    C9_correlation_pearson dfV [1, 2, 1] [0, 1] (by decide) (by decide)
      (by decide) (by decide) (by decide) var_dfV var01⟩

/-- Witness for C10 at a one-row table. -/
theorem C10_witness :
    ((⟨[0], [("Adj Close", [5])]⟩ : DataFrame).col? "Adj Close" = some [5] ∧
      ([(5 : ℚ)] : List ℚ).length < 2) ∧
    (calculate_sharpe ⟨[0], [("Adj Close", [5])]⟩ 0 = .ok .nan ∧
      calculate_volatility ⟨[0], [("Adj Close", [5])]⟩ = .ok .nan ∧
      calculate_max_drawdown ⟨[0], [("Adj Close", [5])]⟩ = .ok .nan) :=
  ⟨⟨by decide, by decide⟩,
    C10_short_series_nan ⟨[0], [("Adj Close", [5])]⟩ [5] 0 (by decide) (by decide)⟩

end Port
